import Mathlib

/-!
# Verification of the Plinko probability-propagation engine

Shallow embedding of `src/PlinkoSDK/PlinkoSDKEngine.py` (the `AyxPlugin`
class): the `plinko_stat` computation and the `pi_init` configuration
validation. Floating-point values are modelled as exact rationals (all
arithmetic in the source is halving and adding, which is exact for the
table sizes of interest).
-/

namespace PlinkoSDK

/-- Number of columns of the grid: `plinko_stat` builds the data frame from
`range(1, max_width*2)`, i.e. `2*max_width - 1` columns, labelled `0 ..
2*max_width - 2`. -/
def numCols (width : ℕ) : ℕ := 2 * width - 1

/-- Row 0 of the grid.  The source zeroes the whole frame and then walks the
columns with `count` starting at 1, setting `df.iloc[0, y] = 1` exactly when
`count == starting_position`; so column `y` holds 1 iff `y + 1` equals the
configured starting position (which may be absent, `None`). -/
def initRow (width : ℕ) (startingPos : Option ℤ) : List ℚ :=
  (List.range (numCols width)).map
    (fun (y : ℕ) => if some ((y : ℤ) + 1) = startingPos then 1 else 0)

/-- Value written by the propagation loop of `plinko_stat` into column `y` of
a row, reading from the previous row `old`.  Mirrors the source exactly:
`tempval` from the left is `old[y-1]` when `y-1 >= 0` else 0, added in full
when `y == 1` and halved otherwise; `tempval` from the right is `old[y+1]`
when `y+1 <= max(df.columns)` else 0, added in full when
`y == max(df.columns) - 1` (i.e. `y + 2 = numCols width`) and halved
otherwise. -/
def stepVal (width : ℕ) (old : List ℚ) (y : ℕ) : ℚ :=
  (if y = 1 then (if 1 ≤ y then old.getD (y - 1) 0 else 0)
   else (if 1 ≤ y then old.getD (y - 1) 0 else 0) / 2) +
  (if y + 2 = numCols width then
     (if y + 1 ≤ numCols width - 1 then old.getD (y + 1) 0 else 0)
   else (if y + 1 ≤ numCols width - 1 then old.getD (y + 1) 0 else 0) / 2)

/-- Proof-layer abbreviation for the left contribution of `stepVal`. -/
def leftTerm (old : List ℚ) (y : ℕ) : ℚ :=
  if y = 1 then (if 1 ≤ y then old.getD (y - 1) 0 else 0)
  else (if 1 ≤ y then old.getD (y - 1) 0 else 0) / 2

/-- Proof-layer abbreviation for the right contribution of `stepVal`,
with `N` standing for `numCols width`. -/
def rightTerm (N : ℕ) (old : List ℚ) (y : ℕ) : ℚ :=
  if y + 2 = N then (if y + 1 ≤ N - 1 then old.getD (y + 1) 0 else 0)
  else (if y + 1 ≤ N - 1 then old.getD (y + 1) 0 else 0) / 2

/-- One propagation step: the row at index `x ≥ 1` computed from row `x-1`. -/
def stepRow (width : ℕ) (old : List ℚ) : List ℚ :=
  (List.range (numCols width)).map (stepVal width old)

/-- Row `r` of the mass table (the grid filled by the nested loop of
`plinko_stat`): row 0 is the impulse row, every later row is the propagation
step applied to its predecessor. -/
def gridRow (width : ℕ) (startingPos : Option ℤ) : ℕ → List ℚ
  | 0 => initRow width startingPos
  | r + 1 => stepRow width (gridRow width startingPos r)

/-- The MassTable returned by `plinko_stat`: rows `0 .. number_rows - 1` of
the grid. -/
def massTable (width rows : ℕ) (startingPos : Option ℤ) : List (List ℚ) :=
  (List.range rows).map (gridRow width startingPos)

/-- The FinalDistribution (`last_row`) returned by `plinko_stat`:
`df.iloc[-1][df.iloc[-1] != 0]`, i.e. the last row of the table filtered to
its non-zero entries, keyed by the column label, in ascending column order. -/
def finalDistribution (width rows : ℕ) (startingPos : Option ℤ) :
    List (ℕ × ℚ) :=
  ((List.range (numCols width)).map
      (fun c => (c, (gridRow width startingPos (rows - 1)).getD c 0))).filter
    (fun p => p.2 ≠ 0)

/-- The configuration check of `pi_init`: an error message when the starting
position is absent, or when it exceeds the number of slots; `none` (no error
reported) otherwise. -/
def pi_init_error (maxWidth : ℕ) (startingPos : Option ℤ) : Option String :=
  match startingPos with
  | none => some "Starting Position cannot be empty."
  | some s =>
      if (maxWidth : ℤ) < s then
        some "Starting Position cannot be greater than the number of slots."
      else none

/-- Result of `pi_init`: the error message (if any) emitted by the validity
checks, and the data frame and last row stored by the unconditional call
`self.df, self.last_row = self.plinko_stat()` on the last line of
`pi_init`. -/
structure PiInitResult where
  errorMsg : Option String
  df : List (List ℚ)
  lastRow : List (ℕ × ℚ)

/-- `pi_init`: runs the validity checks, then always runs `plinko_stat` —
the source calls it unconditionally after (possibly) reporting an error. -/
def pi_init (maxWidth rows : ℕ) (startingPos : Option ℤ) : PiInitResult :=
  { errorMsg := pi_init_error maxWidth startingPos
    df := massTable maxWidth rows startingPos
    lastRow := finalDistribution maxWidth rows startingPos }

/-! ## Basic structural lemmas -/

lemma getD_map_range (f : ℕ → ℚ) (n i : ℕ) (hi : i < n) :
    ((List.range n).map f).getD i 0 = f i := by
  simp [List.getD_eq_getElem?_getD, List.getElem?_map, List.getElem?_range, hi]

lemma length_initRow (w : ℕ) (s : Option ℤ) :
    (initRow w s).length = numCols w := by
  simp only [initRow, List.length_map, List.length_range]

lemma length_stepRow (w : ℕ) (old : List ℚ) :
    (stepRow w old).length = numCols w := by
  simp only [stepRow, List.length_map, List.length_range]

lemma length_gridRow (w : ℕ) (s : Option ℤ) (r : ℕ) :
    (gridRow w s r).length = numCols w := by
  cases r with
  | zero => exact length_initRow w s
  | succ r => exact length_stepRow w _

lemma getD_initRow (w : ℕ) (s : Option ℤ) (i : ℕ) (hi : i < numCols w) :
    (initRow w s).getD i 0 = if some ((i : ℤ) + 1) = s then 1 else 0 := by
  unfold initRow
  exact getD_map_range _ _ _ hi

lemma getD_gridRow_succ (w : ℕ) (s : Option ℤ) (r i : ℕ)
    (hi : i < numCols w) :
    (gridRow w s (r + 1)).getD i 0 = stepVal w (gridRow w s r) i := by
  show (stepRow w (gridRow w s r)).getD i 0 = _
  unfold stepRow
  exact getD_map_range _ _ _ hi

lemma sum_map_range (f : ℕ → ℚ) (n : ℕ) :
    ((List.range n).map f).sum = ∑ y in Finset.range n, f y := by
  induction n with
  | zero => simp
  | succ n ih => rw [List.range_succ, Finset.sum_range_succ]; simp [ih]

lemma sum_eq_range_getD (l : List ℚ) :
    l.sum = ∑ y in Finset.range l.length, l.getD y 0 := by
  induction l with
  | nil => simp
  | cons x xs ih =>
      rw [List.length_cons, Finset.sum_range_succ']
      simp only [List.getD_cons_succ, List.getD_cons_zero, List.sum_cons, ih]
      ring

/-! ## Conservation of mass for widths at least 2 -/

lemma stepVal_eq (w : ℕ) (old : List ℚ) (y : ℕ) :
    stepVal w old y = leftTerm old y + rightTerm (numCols w) old y := rfl

lemma sum_leftTerm (old : List ℚ) (m : ℕ) :
    ∑ y in Finset.range (m + 3), leftTerm old y
      = old.getD 0 0 + ∑ y in Finset.range (m + 1), old.getD (y + 1) 0 / 2 := by
  rw [Finset.sum_range_succ', Finset.sum_range_succ']
  have h2 : ∀ y : ℕ, leftTerm old (y + 1 + 1) = old.getD (y + 1) 0 / 2 := by
    intro y
    simp only [leftTerm]
    rw [if_neg (by omega), if_pos (by omega),
      show y + 1 + 1 - 1 = y + 1 from by omega]
  have h1 : leftTerm old (0 + 1) = old.getD 0 0 := by
    simp only [leftTerm, if_true]
    rw [if_pos (by omega), show 0 + 1 - 1 = 0 from by omega]
  have h0 : leftTerm old 0 = 0 := by
    simp only [leftTerm]
    rw [if_neg (by omega), if_neg (by omega)]
    norm_num
  simp only [h2, h1, h0]
  ring

lemma sum_rightTerm (old : List ℚ) (m : ℕ) :
    ∑ y in Finset.range (m + 3), rightTerm (m + 3) old y
      = old.getD (m + 2) 0 + ∑ y in Finset.range (m + 1), old.getD (y + 1) 0 / 2 := by
  rw [Finset.sum_range_succ, Finset.sum_range_succ]
  have htop : rightTerm (m + 3) old (m + 2) = 0 := by
    simp only [rightTerm]
    rw [if_neg (by omega), if_neg (by omega)]
    norm_num
  have hfull : rightTerm (m + 3) old (m + 1) = old.getD (m + 2) 0 := by
    simp only [rightTerm, if_true]
    rw [if_pos (by omega), show m + 1 + 1 = m + 2 from by omega]
  have hmid : ∀ y ∈ Finset.range (m + 1),
      rightTerm (m + 3) old y = old.getD (y + 1) 0 / 2 := by
    intro y hy
    rw [Finset.mem_range] at hy
    simp only [rightTerm]
    rw [if_neg (by omega), if_pos (by omega)]
  rw [Finset.sum_congr rfl hmid, htop, hfull]
  ring

lemma sum_stepVal (w : ℕ) (old : List ℚ) (hw : 2 ≤ w) :
    ∑ y in Finset.range (numCols w), stepVal w old y
      = ∑ y in Finset.range (numCols w), old.getD y 0 := by
  obtain ⟨m, hm⟩ : ∃ m, numCols w = m + 3 :=
    ⟨2 * w - 4, by unfold numCols; omega⟩
  rw [hm]
  have hstep : ∀ y ∈ Finset.range (m + 3),
      stepVal w old y = leftTerm old y + rightTerm (m + 3) old y := by
    intro y _
    rw [stepVal_eq, hm]
  rw [Finset.sum_congr rfl hstep, Finset.sum_add_distrib, sum_leftTerm,
    sum_rightTerm]
  have hS : ∑ y in Finset.range (m + 3), old.getD y 0
      = (∑ y in Finset.range (m + 1), old.getD (y + 1) 0)
        + old.getD 0 0 + old.getD (m + 2) 0 := by
    rw [Finset.sum_range_succ, Finset.sum_range_succ']
  have hcomb : (∑ y in Finset.range (m + 1), old.getD (y + 1) 0 / 2)
      + (∑ y in Finset.range (m + 1), old.getD (y + 1) 0 / 2)
      = ∑ y in Finset.range (m + 1), old.getD (y + 1) 0 := by
    rw [← Finset.sum_add_distrib]
    exact Finset.sum_congr rfl (fun y _ => by ring)
  rw [hS]
  linarith [hcomb]

lemma sum_stepRow (w : ℕ) (old : List ℚ) (hw : 2 ≤ w)
    (hl : old.length = numCols w) :
    (stepRow w old).sum = old.sum := by
  rw [stepRow, sum_map_range, sum_stepVal w old hw, sum_eq_range_getD old, hl]

lemma sum_initRow (w k : ℕ) (h1 : 1 ≤ k) (h2 : k ≤ numCols w) :
    (initRow w (some (k : ℤ))).sum = 1 := by
  rw [initRow, sum_map_range]
  have h : ∀ y : ℕ, (if some ((y : ℤ) + 1) = some (k : ℤ) then (1 : ℚ) else 0)
      = if y = k - 1 then 1 else 0 := by
    intro y
    have hiff : some ((y : ℤ) + 1) = some (k : ℤ) ↔ y = k - 1 := by
      rw [Option.some_inj]
      omega
    exact if_congr hiff rfl rfl
  simp only [h]
  rw [Finset.sum_ite_eq' (Finset.range (numCols w)) (k - 1) (fun _ => (1 : ℚ))]
  rw [if_pos (Finset.mem_range.mpr (by omega))]

lemma sum_gridRow (w k : ℕ) (r : ℕ) (hw : 2 ≤ w) (h1 : 1 ≤ k)
    (h2 : k ≤ numCols w) :
    (gridRow w (some (k : ℤ)) r).sum = 1 := by
  induction r with
  | zero => exact sum_initRow w k h1 h2
  | succ r ih =>
      show (stepRow w (gridRow w (some (k : ℤ)) r)).sum = 1
      rw [sum_stepRow w _ hw (length_gridRow _ _ _), ih]

/-! ## Mirror symmetry -/

lemma getD_reverse (l : List ℚ) (i : ℕ) (hi : i < l.length) :
    l.reverse.getD i 0 = l.getD (l.length - 1 - i) 0 := by
  rw [List.getD_eq_getElem?_getD, List.getD_eq_getElem?_getD,
    List.getElem?_reverse hi]

lemma list_ext_getD (l₁ l₂ : List ℚ) (hlen : l₁.length = l₂.length)
    (h : ∀ i, i < l₁.length → l₁.getD i 0 = l₂.getD i 0) : l₁ = l₂ := by
  apply List.ext_getElem hlen
  intro i h₁ h₂
  have hi := h i h₁
  rwa [List.getD_eq_getElem _ _ h₁, List.getD_eq_getElem _ _ h₂] at hi

lemma stepVal_reverse (w : ℕ) (old : List ℚ) (hl : old.length = numCols w)
    (y : ℕ) (hy : y < numCols w) :
    stepVal w old.reverse y = stepVal w old (numCols w - 1 - y) := by
  simp only [stepVal]
  set N := numCols w with hN
  have hrev : ∀ j, j < N → old.reverse.getD j 0 = old.getD (N - 1 - j) 0 := by
    intro j hj
    rw [getD_reverse old j (by omega), hl]
  have hL : (if y = 1 then (if 1 ≤ y then old.reverse.getD (y - 1) 0 else 0)
       else (if 1 ≤ y then old.reverse.getD (y - 1) 0 else 0) / 2)
      = (if N - 1 - y + 2 = N then
           (if N - 1 - y + 1 ≤ N - 1 then old.getD (N - 1 - y + 1) 0 else 0)
         else
           (if N - 1 - y + 1 ≤ N - 1 then old.getD (N - 1 - y + 1) 0 else 0) / 2) := by
    by_cases h1 : 1 ≤ y
    · have hv : old.reverse.getD (y - 1) 0 = old.getD (N - 1 - y + 1) 0 := by
        rw [hrev (y - 1) (by omega), show N - 1 - (y - 1) = N - 1 - y + 1 from by omega]
      by_cases he : y = 1
      · rw [if_pos he, if_pos (show N - 1 - y + 2 = N from by omega),
          if_pos h1, if_pos (show N - 1 - y + 1 ≤ N - 1 from by omega), hv]
      · rw [if_neg he, if_neg (show ¬(N - 1 - y + 2 = N) from by omega),
          if_pos h1, if_pos (show N - 1 - y + 1 ≤ N - 1 from by omega), hv]
    · rw [if_neg (by omega), if_neg (show ¬(N - 1 - y + 2 = N) from by omega),
        if_neg h1, if_neg (show ¬(N - 1 - y + 1 ≤ N - 1) from by omega)]
  have hR : (if y + 2 = N then
         (if y + 1 ≤ N - 1 then old.reverse.getD (y + 1) 0 else 0)
       else (if y + 1 ≤ N - 1 then old.reverse.getD (y + 1) 0 else 0) / 2)
      = (if N - 1 - y = 1 then
           (if 1 ≤ N - 1 - y then old.getD (N - 1 - y - 1) 0 else 0)
         else (if 1 ≤ N - 1 - y then old.getD (N - 1 - y - 1) 0 else 0) / 2) := by
    by_cases h1 : y + 1 ≤ N - 1
    · have hv : old.reverse.getD (y + 1) 0 = old.getD (N - 1 - y - 1) 0 := by
        rw [hrev (y + 1) (by omega), show N - 1 - (y + 1) = N - 1 - y - 1 from by omega]
      by_cases he : y + 2 = N
      · rw [if_pos he, if_pos (show N - 1 - y = 1 from by omega),
          if_pos h1, if_pos (show 1 ≤ N - 1 - y from by omega), hv]
      · rw [if_neg he, if_neg (show ¬(N - 1 - y = 1) from by omega),
          if_pos h1, if_pos (show 1 ≤ N - 1 - y from by omega), hv]
    · rw [if_neg (show ¬(y + 2 = N) from by omega),
        if_neg (show ¬(N - 1 - y = 1) from by omega),
        if_neg h1, if_neg (show ¬(1 ≤ N - 1 - y) from by omega)]
  rw [hL, hR]
  exact add_comm _ _

lemma stepRow_reverse (w : ℕ) (old : List ℚ) (hl : old.length = numCols w) :
    stepRow w old.reverse = (stepRow w old).reverse := by
  apply list_ext_getD
  · rw [length_stepRow, List.length_reverse, length_stepRow]
  · intro i hi
    rw [length_stepRow] at hi
    have h1 : (stepRow w old.reverse).getD i 0 = stepVal w old.reverse i := by
      unfold stepRow
      exact getD_map_range _ _ _ hi
    have h2 : (stepRow w old).reverse.getD i 0
        = stepVal w old (numCols w - 1 - i) := by
      rw [getD_reverse _ _ (by rw [length_stepRow]; exact hi), length_stepRow]
      unfold stepRow
      exact getD_map_range _ _ _ (by omega)
    rw [h1, h2, stepVal_reverse w old hl i hi]

lemma initRow_reverse (w k : ℕ) (h1 : 1 ≤ k) (h2 : k ≤ numCols w) :
    initRow w (some ((2 * w - k : ℕ) : ℤ)) = (initRow w (some (k : ℤ))).reverse := by
  apply list_ext_getD
  · rw [length_initRow, List.length_reverse, length_initRow]
  · intro i hi
    rw [length_initRow] at hi
    rw [getD_initRow w _ i hi,
      getD_reverse _ _ (by rw [length_initRow]; exact hi), length_initRow,
      getD_initRow w _ _ (by omega)]
    have hN : numCols w = 2 * w - 1 := rfl
    have hiff : some ((i : ℤ) + 1) = some ((2 * w - k : ℕ) : ℤ)
        ↔ some (((numCols w - 1 - i : ℕ) : ℤ) + 1) = some ((k : ℕ) : ℤ) := by
      rw [Option.some_inj, Option.some_inj]
      omega
    exact if_congr hiff rfl rfl

lemma gridRow_reverse (w k : ℕ) (h1 : 1 ≤ k) (h2 : k ≤ numCols w) (r : ℕ) :
    gridRow w (some ((2 * w - k : ℕ) : ℤ)) r
      = (gridRow w (some (k : ℤ)) r).reverse := by
  induction r with
  | zero => exact initRow_reverse w k h1 h2
  | succ r ih =>
      show stepRow w (gridRow w (some ((2 * w - k : ℕ) : ℤ)) r)
        = (stepRow w (gridRow w (some (k : ℤ)) r)).reverse
      rw [ih, stepRow_reverse w _ (length_gridRow w _ r)]

lemma reverse_map_range {α : Type} (N : ℕ) (g : ℕ → α) :
    ((List.range N).map g).reverse = (List.range N).map (fun c => g (N - 1 - c)) := by
  apply List.ext_getElem
  · simp
  · intro i h₁ h₂
    simp only [List.length_reverse, List.length_map, List.length_range] at h₁ h₂
    rw [List.getElem_reverse]
    simp only [List.getElem_map, List.getElem_range, List.length_map,
      List.length_range]

lemma map_mirror_filter (N : ℕ) (l : List (ℕ × ℚ)) :
    (l.filter (fun p => p.2 ≠ 0)).map (fun p => (N - 1 - p.1, p.2))
      = (l.map (fun p => (N - 1 - p.1, p.2))).filter (fun p => p.2 ≠ 0) := by
  induction l with
  | nil => rfl
  | cons x xs ih =>
      by_cases hx : x.2 = 0
      · simp [List.filter_cons, hx]
        simpa using ih
      · simp [List.filter_cons, hx]
        simpa using ih

lemma filter_pairs_reverse (N : ℕ) (v : ℕ → ℚ) :
    ((List.range N).map (fun c => (c, v (N - 1 - c)))).filter (fun p => p.2 ≠ 0)
      = ((((List.range N).map (fun (c : ℕ) => (c, v c))).filter
            (fun p => p.2 ≠ 0)).map (fun p => (N - 1 - p.1, p.2))).reverse := by
  rw [map_mirror_filter N, ← List.filter_reverse, List.map_map]
  have hcomp : ((fun (p : ℕ × ℚ) => (N - 1 - p.1, p.2)) ∘ fun (c : ℕ) => (c, v c))
      = fun (c : ℕ) => ((N - 1 - c : ℕ), v c) := rfl
  rw [hcomp, reverse_map_range]
  have hpt : ∀ c ∈ List.range N,
      ((N - 1 - (N - 1 - c) : ℕ), v (N - 1 - c)) = ((c : ℕ), v (N - 1 - c)) := by
    intro c hc
    rw [List.mem_range] at hc
    rw [show N - 1 - (N - 1 - c) = c from by omega]
  rw [List.map_congr_left hpt]

lemma finalDistribution_reverse (w rows k : ℕ) (h1 : 1 ≤ k)
    (h2 : k ≤ numCols w) :
    finalDistribution w rows (some ((2 * w - k : ℕ) : ℤ))
      = ((finalDistribution w rows (some (k : ℤ))).map
          (fun p => (numCols w - 1 - p.1, p.2))).reverse := by
  unfold finalDistribution
  rw [gridRow_reverse w k h1 h2]
  have hpt : ∀ c ∈ List.range (numCols w),
      ((c : ℕ), (gridRow w (some (k : ℤ)) (rows - 1)).reverse.getD c 0)
        = ((c : ℕ),
           (gridRow w (some (k : ℤ)) (rows - 1)).getD (numCols w - 1 - c) 0) := by
    intro c hc
    rw [List.mem_range] at hc
    rw [getD_reverse _ _ (by rw [length_gridRow]; exact hc), length_gridRow]
  rw [List.map_congr_left hpt,
    filter_pairs_reverse (numCols w)
      (fun j => (gridRow w (some (k : ℤ)) (rows - 1)).getD j 0)]

/-! ## Pointwise evaluation of the propagation step at notable columns -/

lemma stepVal_col0 (w : ℕ) (old : List ℚ) (hw : 2 ≤ w) :
    stepVal w old 0 = old.getD 1 0 / 2 := by
  have hN : numCols w = 2 * w - 1 := rfl
  simp only [stepVal]
  rw [if_neg (show ¬(0 + 2 = numCols w) from by omega),
    if_pos (show 0 + 1 ≤ numCols w - 1 from by omega)]
  norm_num

lemma stepVal_col1 (w : ℕ) (old : List ℚ) (hw : 3 ≤ w) :
    stepVal w old 1 = old.getD 0 0 + old.getD 2 0 / 2 := by
  have hN : numCols w = 2 * w - 1 := rfl
  simp only [stepVal]
  rw [if_neg (show ¬(1 + 2 = numCols w) from by omega),
    if_pos (show 1 + 1 ≤ numCols w - 1 from by omega)]
  norm_num

lemma stepVal_colLast (w : ℕ) (old : List ℚ) (hw : 2 ≤ w) :
    stepVal w old (2 * w - 2) = old.getD (2 * w - 3) 0 / 2 := by
  have hN : numCols w = 2 * w - 1 := rfl
  simp only [stepVal]
  rw [if_neg (show ¬(2 * w - 2 = 1) from by omega),
    if_pos (show 1 ≤ 2 * w - 2 from by omega),
    if_neg (show ¬(2 * w - 2 + 2 = numCols w) from by omega),
    if_neg (show ¬(2 * w - 2 + 1 ≤ numCols w - 1) from by omega),
    show 2 * w - 2 - 1 = 2 * w - 3 from by omega]
  norm_num

lemma stepVal_colLast2 (w : ℕ) (old : List ℚ) (hw : 3 ≤ w) :
    stepVal w old (2 * w - 3) = old.getD (2 * w - 4) 0 / 2 + old.getD (2 * w - 2) 0 := by
  have hN : numCols w = 2 * w - 1 := rfl
  simp only [stepVal]
  rw [if_neg (show ¬(2 * w - 3 = 1) from by omega),
    if_pos (show 1 ≤ 2 * w - 3 from by omega),
    if_pos (show 2 * w - 3 + 2 = numCols w from by omega),
    if_pos (show 2 * w - 3 + 1 ≤ numCols w - 1 from by omega),
    show 2 * w - 3 - 1 = 2 * w - 4 from by omega,
    show 2 * w - 3 + 1 = 2 * w - 2 from by omega]

lemma stepVal_interior (w : ℕ) (old : List ℚ) (c : ℕ) (hc2 : 2 ≤ c)
    (hc3 : c + 3 ≤ numCols w) :
    stepVal w old c = old.getD (c - 1) 0 / 2 + old.getD (c + 1) 0 / 2 := by
  simp only [stepVal]
  rw [if_neg (show ¬(c = 1) from by omega),
    if_pos (show 1 ≤ c from by omega),
    if_neg (show ¬(c + 2 = numCols w) from by omega),
    if_pos (show c + 1 ≤ numCols w - 1 from by omega)]

/-! ## Non-negativity and the all-zero grid -/

lemma getD_nonneg (l : List ℚ) (h : ∀ x ∈ l, 0 ≤ x) (i : ℕ) :
    0 ≤ l.getD i 0 := by
  rcases Nat.lt_or_ge i l.length with hi | hi
  · rw [List.getD_eq_getElem l 0 hi]
    exact h _ (l.getElem_mem hi)
  · rw [List.getD_eq_default l 0 hi]

lemma stepVal_nonneg (w : ℕ) (old : List ℚ) (y : ℕ)
    (h : ∀ x ∈ old, 0 ≤ x) : 0 ≤ stepVal w old y := by
  rw [stepVal_eq]
  have hA : 0 ≤ (if 1 ≤ y then old.getD (y - 1) 0 else 0) := by
    split
    · exact getD_nonneg old h _
    · exact le_refl 0
  have hB : 0 ≤ (if y + 1 ≤ numCols w - 1 then old.getD (y + 1) 0 else 0) := by
    split
    · exact getD_nonneg old h _
    · exact le_refl 0
  apply add_nonneg
  · unfold leftTerm
    split
    · exact hA
    · exact div_nonneg hA (by norm_num)
  · unfold rightTerm
    split
    · exact hB
    · exact div_nonneg hB (by norm_num)

lemma initRow_nonneg (w : ℕ) (s : Option ℤ) :
    ∀ x ∈ initRow w s, 0 ≤ x := by
  intro x hx
  rw [initRow, List.mem_map] at hx
  obtain ⟨c, _, rfl⟩ := hx
  split
  · norm_num
  · exact le_refl 0

lemma gridRow_nonneg (w : ℕ) (s : Option ℤ) (r : ℕ) :
    ∀ x ∈ gridRow w s r, 0 ≤ x := by
  induction r with
  | zero => exact initRow_nonneg w s
  | succ r ih =>
      intro x hx
      have hx2 : x ∈ stepRow w (gridRow w s r) := hx
      rw [stepRow, List.mem_map] at hx2
      obtain ⟨y, _, rfl⟩ := hx2
      exact stepVal_nonneg w _ y ih

lemma getD_zero_of_all_zero (l : List ℚ) (h : ∀ x ∈ l, x = 0) (i : ℕ) :
    l.getD i 0 = 0 := by
  rcases Nat.lt_or_ge i l.length with hi | hi
  · rw [List.getD_eq_getElem l 0 hi]
    exact h _ (l.getElem_mem hi)
  · rw [List.getD_eq_default l 0 hi]

lemma stepVal_zero (w : ℕ) (old : List ℚ) (y : ℕ)
    (h : ∀ x ∈ old, x = 0) : stepVal w old y = 0 := by
  have hz : ∀ i, old.getD i 0 = 0 := getD_zero_of_all_zero old h
  simp only [stepVal, hz, ite_self]
  norm_num

lemma initRow_nonpos_zero (w : ℕ) (s : ℤ) (hs : s ≤ 0) :
    ∀ x ∈ initRow w (some s), x = 0 := by
  intro x hx
  rw [initRow, List.mem_map] at hx
  obtain ⟨c, _, rfl⟩ := hx
  rw [if_neg ?_]
  intro hc
  rw [Option.some_inj] at hc
  omega

lemma gridRow_nonpos_zero (w : ℕ) (s : ℤ) (hs : s ≤ 0) (r : ℕ) :
    ∀ x ∈ gridRow w (some s) r, x = 0 := by
  induction r with
  | zero => exact initRow_nonpos_zero w s hs
  | succ r ih =>
      intro x hx
      have hx2 : x ∈ stepRow w (gridRow w (some s) r) := hx
      rw [stepRow, List.mem_map] at hx2
      obtain ⟨y, _, rfl⟩ := hx2
      exact stepVal_zero w _ y ih

/-! ## The mass table as a list of rows; the final distribution -/

lemma getD_map_range_row (f : ℕ → List ℚ) (n i : ℕ) (hi : i < n) :
    ((List.range n).map f).getD i [] = f i := by
  simp [List.getD_eq_getElem?_getD, List.getElem?_map, List.getElem?_range, hi]

lemma getD_massTable (w rows : ℕ) (s : Option ℤ) (r : ℕ) (hr : r < rows) :
    (massTable w rows s).getD r [] = gridRow w s r := by
  unfold massTable
  exact getD_map_range_row _ _ _ hr

lemma length_massTable (w rows : ℕ) (s : Option ℤ) :
    (massTable w rows s).length = rows := by
  simp only [massTable, List.length_map, List.length_range]

lemma mem_massTable (w rows : ℕ) (s : Option ℤ) (row : List ℚ)
    (hrow : row ∈ massTable w rows s) : ∃ r, r < rows ∧ row = gridRow w s r := by
  rw [massTable, List.mem_map] at hrow
  obtain ⟨r, hr, rfl⟩ := hrow
  rw [List.mem_range] at hr
  exact ⟨r, hr, rfl⟩

lemma filter_pairs_nil {N : ℕ} {v : ℕ → ℚ} (hv : ∀ c, c < N → v c = 0) :
    ((List.range N).map (fun (c : ℕ) => (c, v c))).filter
      (fun p => p.2 ≠ 0) = [] := by
  rw [List.filter_eq_nil_iff]
  intro p hp
  rw [List.mem_map] at hp
  obtain ⟨c, hc, rfl⟩ := hp
  rw [List.mem_range] at hc
  simp [hv c hc]

lemma filter_pairs_single (N k : ℕ) (h1 : 1 ≤ k) (h2 : k ≤ N) (v : ℕ → ℚ)
    (hv : ∀ c, c < N → v c = if c = k - 1 then 1 else 0) :
    ((List.range N).map (fun (c : ℕ) => (c, v c))).filter
      (fun p => p.2 ≠ 0) = [(k - 1, 1)] := by
  induction N with
  | zero => omega
  | succ n ih =>
      rw [List.range_succ, List.map_append, List.filter_append]
      rcases Nat.lt_or_ge k (n + 1) with hk | hk
      · rw [ih (by omega) (fun c hc => hv c (by omega))]
        have hvn : v n = 0 := by
          rw [hv n (by omega), if_neg (by omega)]
        simp [hvn]
      · have hkn : k = n + 1 := by omega
        rw [filter_pairs_nil
          (fun c hc => by rw [hv c (by omega), if_neg (by omega)])]
        have hvn : v n = 1 := by
          rw [hv n (by omega), if_pos (by omega)]
        simp [hvn, hkn]

lemma mem_finalDistribution_iff (w rows : ℕ) (s : Option ℤ) (c : ℕ) (q : ℚ) :
    (c, q) ∈ finalDistribution w rows s
      ↔ c < numCols w ∧ q = (gridRow w s (rows - 1)).getD c 0 ∧ q ≠ 0 := by
  unfold finalDistribution
  rw [List.mem_filter, List.mem_map]
  constructor
  · rintro ⟨⟨c', hc', hev⟩, hnz⟩
    rw [List.mem_range] at hc'
    obtain ⟨rfl, rfl⟩ := Prod.mk.injEq .. ▸ hev
    refine ⟨hc', rfl, ?_⟩
    simpa using hnz
  · rintro ⟨hc, rfl, hnz⟩
    refine ⟨⟨c, List.mem_range.mpr hc, rfl⟩, by simpa using hnz⟩

lemma finalDistribution_keys_sorted (w rows : ℕ) (s : Option ℤ) :
    ((finalDistribution w rows s).map Prod.fst).Pairwise (· < ·) := by
  unfold finalDistribution
  have hsub : List.Sublist
      ((((List.range (numCols w)).map
        (fun c => (c, (gridRow w s (rows - 1)).getD c 0))).filter
          (fun p => p.2 ≠ 0)).map Prod.fst)
      (((List.range (numCols w)).map
        (fun c => (c, (gridRow w s (rows - 1)).getD c 0))).map Prod.fst) :=
    (List.filter_sublist _).map Prod.fst
  have hall : ((List.range (numCols w)).map
        (fun c => (c, (gridRow w s (rows - 1)).getD c 0))).map Prod.fst
      = List.range (numCols w) := by
    rw [List.map_map]
    exact List.map_id ..
  refine List.Pairwise.sublist hsub ?_
  rw [hall]
  exact List.pairwise_lt_range _

/-! ## Claims -/

/-- C1, counterexample: mass is NOT conserved for every valid input. At
`width = 1`, `rows = 2`, `startingSlot = 1` (a valid input), row 1 of the
MassTable sums to 0 while row 0 sums to 1: the single column of the board
is out of reach of both the `y == 1` full-mass rule and the halved
contributions, so the whole mass is lost after the first propagation
step. -/
theorem C1_conservation_counterexample :
    ((massTable 1 2 (some ((1 : ℕ) : ℤ))).getD 1 []).sum
      ≠ ((massTable 1 2 (some ((1 : ℕ) : ℤ))).getD 0 []).sum := by
  have h1 : ((massTable 1 2 (some ((1 : ℕ) : ℤ))).getD 1 []).sum = 0 := by
    norm_num [massTable, gridRow, stepRow, stepVal, initRow, numCols,
      List.range_succ, List.getD]
  have h0 : ((massTable 1 2 (some ((1 : ℕ) : ℤ))).getD 0 []).sum = 1 := by
    norm_num [massTable, gridRow, stepRow, stepVal, initRow, numCols,
      List.range_succ, List.getD]
  rw [h1, h0]
  norm_num

/-- C1, amended: for every width ≥ 2 (the claim fails only at width 1),
rows > 0 and startingSlot in [1, width], every row `r` of the MassTable
returned by `plinko_stat` has total mass exactly 1, hence equal to the sum
of row 0. -/
theorem C1_conservation_width_ge_two (w rows k r : ℕ) (hw : 2 ≤ w)
    (h1 : 1 ≤ k) (h2 : k ≤ w) (hr : r < rows) :
    ((massTable w rows (some (k : ℤ))).getD r []).sum = 1 := by
  rw [getD_massTable w rows _ r hr]
  exact sum_gridRow w k r hw h1 (by unfold numCols; omega)

/-- Witness for C1: width 2, 2 rows, slot 1, row 1. -/
theorem C1_conservation_witness :
    2 ≤ 2 ∧ 1 ≤ 1 ∧ 1 ≤ 2 ∧ 1 < 2 ∧
      ((massTable 2 2 (some ((1 : ℕ) : ℤ))).getD 1 []).sum = 1 :=
  ⟨by decide, by decide, by decide, by decide,
    C1_conservation_width_ge_two 2 2 1 1 (by decide) (by decide) (by decide)
      (by decide)⟩

/-- C2, counterexample: the edge column does NOT receive the full mass of
its single interior neighbor. At `width = 3`, `rows = 2`,
`startingSlot = 2` (all mass starts at column 1), the claim predicts
`grid[1][0] = grid[0][1] = 1`, but the code computes `grid[1][0] = 1/2`:
the full-mass exception in the source fires at destination column `1`
(`y == 1`), not at the edge column `0`. -/
theorem C2_boundary_counterexample :
    ((massTable 3 2 (some ((2 : ℕ) : ℤ))).getD 1 []).getD 0 0 = 1 / 2 ∧
    ((massTable 3 2 (some ((2 : ℕ) : ℤ))).getD 0 []).getD 1 0 = 1 ∧
    ((massTable 3 2 (some ((2 : ℕ) : ℤ))).getD 1 []).getD 0 0
      ≠ ((massTable 3 2 (some ((2 : ℕ) : ℤ))).getD 0 []).getD 1 0 := by
  refine ⟨?_, ?_, ?_⟩ <;>
    norm_num [massTable, gridRow, stepRow, stepVal, initRow, numCols,
      List.range_succ, List.getD]

/-- C2, amended: the full-mass exception of the propagation step fires at
destination column 1 (which receives column 0's mass in full) and at
destination column `2*width-3` (which receives column `2*width-2`'s mass
in full); the edge columns 0 and `2*width-2` themselves receive only the
halved contribution of their single interior neighbor (stated for
width ≥ 3, where the four columns are distinct). -/
theorem C2_boundary_rule (w rows : ℕ) (s : Option ℤ) (r : ℕ) (hw : 3 ≤ w)
    (hr1 : 1 ≤ r) (hr : r < rows) :
    ((massTable w rows s).getD r []).getD 0 0
        = ((massTable w rows s).getD (r - 1) []).getD 1 0 / 2 ∧
    ((massTable w rows s).getD r []).getD (2 * w - 2) 0
        = ((massTable w rows s).getD (r - 1) []).getD (2 * w - 3) 0 / 2 ∧
    ((massTable w rows s).getD r []).getD 1 0
        = ((massTable w rows s).getD (r - 1) []).getD 0 0
          + ((massTable w rows s).getD (r - 1) []).getD 2 0 / 2 ∧
    ((massTable w rows s).getD r []).getD (2 * w - 3) 0
        = ((massTable w rows s).getD (r - 1) []).getD (2 * w - 4) 0 / 2
          + ((massTable w rows s).getD (r - 1) []).getD (2 * w - 2) 0 := by
  have hN : numCols w = 2 * w - 1 := rfl
  have hrw : r = (r - 1) + 1 := by omega
  rw [getD_massTable w rows s r hr, getD_massTable w rows s (r - 1) (by omega),
    hrw, getD_gridRow_succ w s (r - 1) 0 (by omega),
    getD_gridRow_succ w s (r - 1) (2 * w - 2) (by omega),
    getD_gridRow_succ w s (r - 1) 1 (by omega),
    getD_gridRow_succ w s (r - 1) (2 * w - 3) (by omega)]
  exact ⟨stepVal_col0 w _ (by omega), stepVal_colLast w _ (by omega),
    stepVal_col1 w _ hw, stepVal_colLast2 w _ hw⟩

/-- Witness for C2: width 3, 2 rows, slot 2, row 1. -/
theorem C2_boundary_witness :
    3 ≤ 3 ∧ 1 ≤ 1 ∧ 1 < 2 ∧
    (((massTable 3 2 (some ((2 : ℕ) : ℤ))).getD 1 []).getD 0 0
        = ((massTable 3 2 (some ((2 : ℕ) : ℤ))).getD 0 []).getD 1 0 / 2 ∧
    ((massTable 3 2 (some ((2 : ℕ) : ℤ))).getD 1 []).getD (2 * 3 - 2) 0
        = ((massTable 3 2 (some ((2 : ℕ) : ℤ))).getD 0 []).getD (2 * 3 - 3) 0 / 2 ∧
    ((massTable 3 2 (some ((2 : ℕ) : ℤ))).getD 1 []).getD 1 0
        = ((massTable 3 2 (some ((2 : ℕ) : ℤ))).getD 0 []).getD 0 0
          + ((massTable 3 2 (some ((2 : ℕ) : ℤ))).getD 0 []).getD 2 0 / 2 ∧
    ((massTable 3 2 (some ((2 : ℕ) : ℤ))).getD 1 []).getD (2 * 3 - 3) 0
        = ((massTable 3 2 (some ((2 : ℕ) : ℤ))).getD 0 []).getD (2 * 3 - 4) 0 / 2
          + ((massTable 3 2 (some ((2 : ℕ) : ℤ))).getD 0 []).getD (2 * 3 - 2) 0) :=
  ⟨by decide, by decide, by decide,
    C2_boundary_rule 3 2 (some ((2 : ℕ) : ℤ)) 1 (by decide) (by decide)
      (by decide)⟩

/-- C3: the code reports the configuration error for
`startingSlot = 5 > width = 3` (and for a missing startingSlot), but then
`pi_init` unconditionally runs `plinko_stat` on its last line, so a
MassTable IS produced (here a 2 × 5 table whose row 0 holds mass 1 at
column 4) — the claim's "no MassTable is produced and the computation does
not proceed" is the documented intent (`is_initialized` is set to False
but never consulted), and the code violates it. -/
theorem C3_error_reported_but_table_built :
    (pi_init 3 2 (some 5)).errorMsg
        = some "Starting Position cannot be greater than the number of slots." ∧
    (pi_init 3 2 (some 5)).df.length = 2 ∧
    ((pi_init 3 2 (some 5)).df.getD 0 []).getD 4 0 = 1 ∧
    (pi_init 3 2 none).errorMsg = some "Starting Position cannot be empty." ∧
    (pi_init 3 2 none).df.length = 2 := by
  refine ⟨?_, ?_, ?_, ?_, ?_⟩ <;>
    norm_num [pi_init, pi_init_error, massTable, gridRow, stepRow, stepVal,
      initRow, numCols, List.range_succ, List.getD]

/-- C4, counterexample: the FinalDistributions for `startingSlot = k` and
`startingSlot = W+1-k` are NOT mirrors of each other. At `width = 3`,
`rows = 2`, `k = 1` (so `W+1-k = 3`): slot 1 gives `{1: 1.0}` while the
mirror of slot 3's distribution is `{1: 0.5, 3: 0.5}` — the starting
columns `k-1` and `W-k` are not mirror images inside the
`2*width-1`-column board. -/
theorem C4_mirror_counterexample :
    finalDistribution 3 2 (some ((1 : ℕ) : ℤ)) = [(1, 1)] ∧
    ((finalDistribution 3 2 (some ((3 : ℕ) : ℤ))).map
        (fun p => (2 * 3 - 2 - p.1, p.2))).reverse = [(1, 1 / 2), (3, 1 / 2)] ∧
    finalDistribution 3 2 (some ((1 : ℕ) : ℤ))
      ≠ ((finalDistribution 3 2 (some ((3 : ℕ) : ℤ))).map
          (fun p => (2 * 3 - 2 - p.1, p.2))).reverse := by
  have hA : finalDistribution 3 2 (some ((1 : ℕ) : ℤ)) = [(1, 1)] := by
    norm_num [finalDistribution, gridRow, stepRow, stepVal, initRow, numCols,
      List.range_succ, List.getD]
  have hB : ((finalDistribution 3 2 (some ((3 : ℕ) : ℤ))).map
        (fun p => (2 * 3 - 2 - p.1, p.2))).reverse = [(1, 1 / 2), (3, 1 / 2)] := by
    norm_num [finalDistribution, gridRow, stepRow, stepVal, initRow, numCols,
      List.range_succ, List.getD]
  refine ⟨hA, hB, ?_⟩
  rw [hA, hB]
  simp

/-- C4, amended: the true mirror partner of `startingSlot = k` is
`startingSlot = 2*W-k` (the slot whose starting column `2*W-k-1` is the
board mirror of column `k-1`), not `W+1-k`: for every `k` in
`[1, 2*W-1]`, the FinalDistribution for slot `k` is the column-for-column
mirror (column `c` mapped to column `2*W-2-c`, order reversed) of the
FinalDistribution for slot `2*W-k`.  (For `k ≤ W` the partner `2*W-k`
generally exceeds the validated slot range, but `plinko_stat` computes it
as given.) -/
theorem C4_mirror_slot (w rows k : ℕ) (h1 : 1 ≤ k) (h2 : k ≤ 2 * w - 1)
    (hrows : 1 ≤ rows) :
    finalDistribution w rows (some (k : ℤ))
      = ((finalDistribution w rows (some ((2 * w - k : ℕ) : ℤ))).map
          (fun p => (2 * w - 2 - p.1, p.2))).reverse := by
  have hN : numCols w = 2 * w - 1 := rfl
  have h := finalDistribution_reverse w rows (2 * w - k) (by omega) (by omega)
  rw [show 2 * w - (2 * w - k) = k from by omega] at h
  rw [h]
  have he : ∀ p : ℕ × ℚ,
      ((numCols w - 1 - p.1 : ℕ), p.2) = ((2 * w - 2 - p.1 : ℕ), p.2) := by
    intro p
    rw [show numCols w - 1 - p.1 = 2 * w - 2 - p.1 from by omega]
  simp only [he]

/-- Witness for C4: width 3, 2 rows, slot 1 against slot 5. -/
theorem C4_mirror_witness :
    1 ≤ 1 ∧ 1 ≤ 2 * 3 - 1 ∧ 1 ≤ 2 ∧
    finalDistribution 3 2 (some ((1 : ℕ) : ℤ))
      = ((finalDistribution 3 2 (some ((2 * 3 - 1 : ℕ) : ℤ))).map
          (fun p => (2 * 3 - 2 - p.1, p.2))).reverse :=
  ⟨by decide, by decide, by decide,
    C4_mirror_slot 3 2 1 (by decide) (by decide) (by decide)⟩

/-- C5, counterexample: for `rows = 1` the FinalDistribution is keyed by
the 0-indexed column label `startingSlot - 1`, not by `startingSlot`. At
`width = 3`, `rows = 1`, `startingSlot = 2` the result is `{1: 1.0}`,
not `{2: 1.0}`. -/
theorem C5_rows_one_counterexample :
    finalDistribution 3 1 (some ((2 : ℕ) : ℤ)) = [(1, 1)] ∧
    finalDistribution 3 1 (some ((2 : ℕ) : ℤ)) ≠ [(2, 1)] := by
  have hA : finalDistribution 3 1 (some ((2 : ℕ) : ℤ)) = [(1, 1)] := by
    norm_num [finalDistribution, gridRow, stepRow, stepVal, initRow, numCols,
      List.range_succ, List.getD]
  refine ⟨hA, ?_⟩
  rw [hA]
  intro h
  have h2 : (1 : ℕ) = 2 := congrArg (fun l => (l.headD (0, 0)).1) h
  exact absurd h2 (by decide)

/-- C5, amended: for every valid input with `rows = 1`, the
FinalDistribution returned by `plinko_stat` is exactly the single-entry
mapping `{startingSlot - 1 : 1.0}` — one entry, keyed by the 0-indexed
column of the starting slot, with mass 1. -/
theorem C5_rows_one (w k : ℕ) (h1 : 1 ≤ k) (h2 : k ≤ w) :
    finalDistribution w 1 (some (k : ℤ)) = [(k - 1, 1)] := by
  have hN : numCols w = 2 * w - 1 := rfl
  unfold finalDistribution
  rw [show (1 : ℕ) - 1 = 0 from rfl]
  apply filter_pairs_single (numCols w) k h1 (by omega)
  intro c hc
  show (initRow w (some (k : ℤ))).getD c 0 = _
  rw [getD_initRow w _ c hc]
  have hiff : some ((c : ℤ) + 1) = some ((k : ℕ) : ℤ) ↔ c = k - 1 := by
    rw [Option.some_inj]
    omega
  exact if_congr hiff rfl rfl

/-- Witness for C5: width 3, slot 2. -/
theorem C5_rows_one_witness :
    1 ≤ 2 ∧ 2 ≤ 3 ∧
    finalDistribution 3 1 (some ((2 : ℕ) : ℤ)) = [(2 - 1, 1)] :=
  ⟨by decide, by decide, C5_rows_one 3 2 (by decide) (by decide)⟩

/-- C6, counterexample: the pure half-split formula does NOT hold at every
non-edge destination column. At `width = 3`, `rows = 2`,
`startingSlot = 1`, destination column 1 (neither first nor last), the
claim predicts `grid[1][1] = grid[0][0]/2 + grid[0][2]/2 = 1/2`, but the
code's `y == 1` full-mass rule gives `grid[1][1] = grid[0][0] = 1`. -/
theorem C6_interior_counterexample :
    ((massTable 3 2 (some ((1 : ℕ) : ℤ))).getD 1 []).getD 1 0 = 1 ∧
    ((massTable 3 2 (some ((1 : ℕ) : ℤ))).getD 0 []).getD 0 0 / 2
      + ((massTable 3 2 (some ((1 : ℕ) : ℤ))).getD 0 []).getD 2 0 / 2 = 1 / 2 ∧
    ((massTable 3 2 (some ((1 : ℕ) : ℤ))).getD 1 []).getD 1 0
      ≠ ((massTable 3 2 (some ((1 : ℕ) : ℤ))).getD 0 []).getD 0 0 / 2
        + ((massTable 3 2 (some ((1 : ℕ) : ℤ))).getD 0 []).getD 2 0 / 2 := by
  refine ⟨?_, ?_, ?_⟩ <;>
    norm_num [massTable, gridRow, stepRow, stepVal, initRow, numCols,
      List.range_succ, List.getD]

/-- C6, amended: the half-split recurrence
`grid[r][c] = grid[r-1][c-1]/2 + grid[r-1][c+1]/2` holds for every
destination column `c` with `2 ≤ c ≤ 2*width-4` (both sources are then in
bounds), i.e. away from the four special columns `0`, `1`, `2*width-3`
and `2*width-2`; at columns `1` and `2*width-3` the code adds a full, not
halved, contribution. -/
theorem C6_interior_rule (w rows : ℕ) (s : Option ℤ) (r c : ℕ)
    (hr1 : 1 ≤ r) (hr : r < rows) (hc2 : 2 ≤ c) (hc3 : c + 3 ≤ 2 * w - 1) :
    ((massTable w rows s).getD r []).getD c 0
      = ((massTable w rows s).getD (r - 1) []).getD (c - 1) 0 / 2
        + ((massTable w rows s).getD (r - 1) []).getD (c + 1) 0 / 2 := by
  have hN : numCols w = 2 * w - 1 := rfl
  have hrw : r = (r - 1) + 1 := by omega
  rw [getD_massTable w rows s r hr, getD_massTable w rows s (r - 1) (by omega),
    hrw, getD_gridRow_succ w s (r - 1) c (by omega)]
  exact stepVal_interior w _ c hc2 (by omega)

/-- Witness for C6: width 3, 2 rows, slot 2, row 1, column 2. -/
theorem C6_interior_witness :
    1 ≤ 1 ∧ 1 < 2 ∧ 2 ≤ 2 ∧ 2 + 3 ≤ 2 * 3 - 1 ∧
    ((massTable 3 2 (some ((2 : ℕ) : ℤ))).getD 1 []).getD 2 0
      = ((massTable 3 2 (some ((2 : ℕ) : ℤ))).getD 0 []).getD 1 0 / 2
        + ((massTable 3 2 (some ((2 : ℕ) : ℤ))).getD 0 []).getD 3 0 / 2 :=
  ⟨by decide, by decide, by decide, by decide,
    C6_interior_rule 3 2 (some ((2 : ℕ) : ℤ)) 1 2 (by decide) (by decide)
      (by decide) (by decide)⟩

/-- C7, counterexample: row 0's unit mass sits at 0-indexed column
`startingSlot - 1`, not at column `startingSlot`. At `width = 3`,
`rows = 1`, `startingSlot = 2`: `grid[0][2] = 0` (the claim predicts 1)
and the mass actually sits at `grid[0][1]`. -/
theorem C7_row0_counterexample :
    ((massTable 3 1 (some ((2 : ℕ) : ℤ))).getD 0 []).getD 2 0 = 0 ∧
    ((massTable 3 1 (some ((2 : ℕ) : ℤ))).getD 0 []).getD 1 0 = 1 ∧
    ((massTable 3 1 (some ((2 : ℕ) : ℤ))).getD 0 []).getD 2 0 ≠ 1 := by
  refine ⟨?_, ?_, ?_⟩ <;>
    norm_num [massTable, gridRow, stepRow, stepVal, initRow, numCols,
      List.range_succ, List.getD]

/-- C7, amended: for every valid input the MassTable is a
`rows × (2*width-1)` grid whose row 0 has exactly one non-zero entry,
equal to 1, located at `grid[0][startingSlot - 1]` (0-indexed: the column
whose 1-indexed position is `startingSlot`), all other entries of row 0
being zero. -/
theorem C7_row0_impulse (w rows k : ℕ) (h1 : 1 ≤ k) (h2 : k ≤ w)
    (hrows : 1 ≤ rows) :
    (massTable w rows (some (k : ℤ))).length = rows ∧
    (∀ row ∈ massTable w rows (some (k : ℤ)), row.length = 2 * w - 1) ∧
    ((massTable w rows (some (k : ℤ))).getD 0 []).getD (k - 1) 0 = 1 ∧
    (∀ c, c < 2 * w - 1 → c ≠ k - 1 →
      ((massTable w rows (some (k : ℤ))).getD 0 []).getD c 0 = 0) := by
  have hN : numCols w = 2 * w - 1 := rfl
  refine ⟨length_massTable w rows _, ?_, ?_, ?_⟩
  · intro row hrow
    obtain ⟨r, _, rfl⟩ := mem_massTable w rows _ row hrow
    rw [length_gridRow]
    exact hN
  · rw [getD_massTable w rows _ 0 (by omega)]
    show (initRow w (some (k : ℤ))).getD (k - 1) 0 = 1
    rw [getD_initRow w _ (k - 1) (by omega)]
    have hc : some (((k - 1 : ℕ) : ℤ) + 1) = some ((k : ℕ) : ℤ) := by
      rw [Option.some_inj]
      omega
    rw [if_pos hc]
  · intro c hc hne
    rw [getD_massTable w rows _ 0 (by omega)]
    show (initRow w (some (k : ℤ))).getD c 0 = 0
    rw [getD_initRow w _ c (by omega)]
    exact if_neg (fun hcc => hne (by rw [Option.some_inj] at hcc; omega))

/-- Witness for C7: width 3, 1 row, slot 2. -/
theorem C7_row0_witness :
    1 ≤ 2 ∧ 2 ≤ 3 ∧ 1 ≤ 1 ∧
    ((massTable 3 1 (some ((2 : ℕ) : ℤ))).length = 1 ∧
    (∀ row ∈ massTable 3 1 (some ((2 : ℕ) : ℤ)), row.length = 2 * 3 - 1) ∧
    ((massTable 3 1 (some ((2 : ℕ) : ℤ))).getD 0 []).getD (2 - 1) 0 = 1 ∧
    (∀ c, c < 2 * 3 - 1 → c ≠ 2 - 1 →
      ((massTable 3 1 (some ((2 : ℕ) : ℤ))).getD 0 []).getD c 0 = 0)) :=
  ⟨by decide, by decide, by decide,
    C7_row0_impulse 3 1 2 (by decide) (by decide) (by decide)⟩

/-- C8: for every input with `rows ≥ 1`, the FinalDistribution contains a
pair `(c, q)` exactly when column `c` of the last row (row `rows - 1`) of
the MassTable holds the non-zero mass `q`; its keys are the column
indices, listed in strictly ascending order. -/
theorem C8_finalDistribution_spec (w rows : ℕ) (s : Option ℤ)
    (hrows : 1 ≤ rows) :
    (∀ c q, ((c, q) ∈ finalDistribution w rows s
        ↔ c < numCols w
          ∧ q = ((massTable w rows s).getD (rows - 1) []).getD c 0
          ∧ q ≠ 0)) ∧
    ((finalDistribution w rows s).map Prod.fst).Pairwise (· < ·) := by
  constructor
  · intro c q
    rw [getD_massTable w rows s (rows - 1) (by omega)]
    exact mem_finalDistribution_iff w rows s c q
  · exact finalDistribution_keys_sorted w rows s

/-- Witness for C8: width 3, 2 rows, slot 2. -/
theorem C8_finalDistribution_witness :
    1 ≤ 2 ∧
    ((∀ c q, ((c, q) ∈ finalDistribution 3 2 (some ((2 : ℕ) : ℤ))
        ↔ c < numCols 3
          ∧ q = ((massTable 3 2 (some ((2 : ℕ) : ℤ))).getD (2 - 1) []).getD c 0
          ∧ q ≠ 0)) ∧
    ((finalDistribution 3 2 (some ((2 : ℕ) : ℤ))).map Prod.fst).Pairwise (· < ·)) :=
  ⟨by decide, C8_finalDistribution_spec 3 2 (some ((2 : ℕ) : ℤ)) (by decide)⟩

/-- C9: every entry of every row of the MassTable is non-negative: the
impulse row is non-negative and each propagation step adds halved (or
full) non-negative contributions. -/
theorem C9_mass_nonneg (w rows : ℕ) (s : Option ℤ) (row : List ℚ)
    (hrow : row ∈ massTable w rows s) : ∀ x ∈ row, 0 ≤ x := by
  obtain ⟨r, _, rfl⟩ := mem_massTable w rows s row hrow
  exact gridRow_nonneg w s r

/-- Witness for C9: row 1 of the width-3, slot-2 table, entry 1/2. -/
theorem C9_mass_nonneg_witness :
    ([(1 : ℚ) / 2, 0, 1 / 2, 0, 0] ∈ massTable 3 2 (some ((2 : ℕ) : ℤ))) ∧
    (0 : ℚ) ≤ 1 / 2 := by
  have hm : [(1 : ℚ) / 2, 0, 1 / 2, 0, 0] ∈ massTable 3 2 (some ((2 : ℕ) : ℤ)) := by
    have ht : massTable 3 2 (some ((2 : ℕ) : ℤ))
        = [[0, 1, 0, 0, 0], [1 / 2, 0, 1 / 2, 0, 0]] := by
      norm_num [massTable, gridRow, stepRow, stepVal, initRow, numCols,
        List.range_succ, List.getD]
    rw [ht]
    simp
  exact ⟨hm, C9_mass_nonneg 3 2 (some ((2 : ℕ) : ℤ)) _ hm (1 / 2) (by simp)⟩

/-- C10: for a non-positive starting slot, `pi_init` reports no
configuration error (the checks only reject a missing slot or one
exceeding the width), and the computed MassTable is all-zero — the
impulse is never placed because the column counter starts at 1 — with an
empty FinalDistribution. -/
theorem C10_nonpositive_slot (w rows : ℕ) (s : ℤ) (hs : s ≤ 0) (hw : 0 < w)
    (hrows : 0 < rows) :
    (pi_init w rows (some s)).errorMsg = none ∧
    (∀ row ∈ (pi_init w rows (some s)).df, ∀ x ∈ row, x = 0) ∧
    (pi_init w rows (some s)).lastRow = [] := by
  refine ⟨?_, ?_, ?_⟩
  · show (if ((w : ℕ) : ℤ) < s then
        some "Starting Position cannot be greater than the number of slots."
      else none) = (none : Option String)
    rw [if_neg (by omega)]
  · intro row hrow
    obtain ⟨r, _, rfl⟩ := mem_massTable w rows (some s) row hrow
    exact gridRow_nonpos_zero w s hs r
  · show finalDistribution w rows (some s) = []
    unfold finalDistribution
    apply filter_pairs_nil
    intro c _
    exact getD_zero_of_all_zero _ (gridRow_nonpos_zero w s hs (rows - 1)) c

/-- Witness for C10: width 3, 2 rows, slot −1. -/
theorem C10_nonpositive_slot_witness :
    (-1 : ℤ) ≤ 0 ∧ 0 < 3 ∧ 0 < 2 ∧
    ((pi_init 3 2 (some (-1))).errorMsg = none ∧
    (∀ row ∈ (pi_init 3 2 (some (-1))).df, ∀ x ∈ row, x = 0) ∧
    (pi_init 3 2 (some (-1))).lastRow = []) :=
  ⟨by decide, by decide, by decide,
    C10_nonpositive_slot 3 2 (-1) (by decide) (by decide) (by decide)⟩

example : gridRow 3 (some 2) 1 = [1/2, 0, 1/2, 0, 0] := by
  norm_num [gridRow, stepRow, stepVal, initRow, numCols, List.range_succ,
    List.getD]

example : gridRow 3 (some 1) 1 = [0, 1, 0, 0, 0] := by
  norm_num [gridRow, stepRow, stepVal, initRow, numCols, List.range_succ,
    List.getD]

example : gridRow 1 (some 1) 1 = [0] := by
  norm_num [gridRow, stepRow, stepVal, initRow, numCols, List.range_succ,
    List.getD]

example : finalDistribution 3 2 (some 3) = [(1, 1/2), (3, 1/2)] := by
  norm_num [finalDistribution, gridRow, stepRow, stepVal, initRow, numCols,
    List.range_succ, List.getD]

end PlinkoSDK
